import Mathlib

/-!
Verification of the numerical core of the Euler/RK4 comparison service.

All floating-point values of the Python source are modelled as exact
rationals (`ℚ`); `NaN` reference samples are modelled as `Option ℚ` with
`none` standing for `NaN`; Python exceptions become `Except` errors.
`math.sqrt` is kept out of stored data: wherever the source stores an RMSE
(`sqrt` of a mean of squares) the model stores the squared value, and the
theorems relate it to the real RMSE through `Real.sqrt` (which is strictly
monotone on nonnegative reals, so ordering comparisons agree).
-/

set_option maxRecDepth 4000

/-- Python `int(q)` on a rational: truncation toward zero. -/
def pyInt (q : ℚ) : ℤ := if 0 ≤ q then ⌊q⌋ else ⌈q⌉

/-- Python `round(q)` on a rational: round half to even (banker's rounding). -/
def pythonRound (q : ℚ) : ℤ :=
  let f := ⌊q⌋
  let r := q - f
  if r < 1/2 then f
  else if 1/2 < r then f + 1
  else if f % 2 = 0 then f else f + 1

/-- The three validation failures of `app/core/grid.py::build_time_grid`. -/
inductive GridError where
  | invalidStep
  | invalidDomain
  | gridTooLarge
deriving DecidableEq, Repr

/-- The `while t < T_tol: grid.append(t); t += h` loop of `build_time_grid`. -/
def gridLoop (h Ttol t : ℚ) : List ℚ :=
  if c : 0 < h ∧ t < Ttol then t :: gridLoop h Ttol (t + h)
  else []
termination_by (⌈(Ttol - t) / h⌉).toNat
decreasing_by
  obtain ⟨h0, ht⟩ := c
  have key : (Ttol - (t + h)) / h = (Ttol - t) / h - 1 := by
    field_simp
    ring
  have hpos : (0 : ℚ) < (Ttol - t) / h := div_pos (by linarith) h0
  have h1 : (1 : ℤ) ≤ ⌈(Ttol - t) / h⌉ := Int.ceil_pos.mpr hpos
  rw [key, Int.ceil_sub_one]
  omega

/-- `app/core/grid.py::build_time_grid`. -/
def build_time_grid (t0 T h : ℚ) (max_points : ℕ := 5000) :
    Except GridError (List ℚ) :=
  if h ≤ 0 then .error .invalidStep
  else if T ≤ t0 then .error .invalidDomain
  else if (max_points : ℤ) < pyInt ((T - t0) / h) + 2 then .error .gridTooLarge
  else
    let grid := gridLoop h (T + 1/1000000000000) t0
    if 1/100000000 < |grid.getLastD 0 - T| then .ok (grid ++ [T])
    else .ok grid

/-- The two `ValueError`s of `euler_solve` / `rk4_solve`
(`app/domain/numerics/{euler,rk4}.py`). -/
inductive SolveError where
  | stepNotPositive
  | inconsistentDomain
deriving DecidableEq, Repr

/-- The `for k in range(n_steps)` loop of `euler_solve`: at iteration `k` the
running point is `x = x0 + k*h`, the update is `y += h*f(x, y)` followed by
`x = x0 + (k+1)*h`, and the pair appended to `(xs, ys)` is returned.
The first argument counts the remaining iterations. -/
def eulerGo (f : ℚ → ℚ → ℚ) (x0 stp : ℚ) : ℕ → ℕ → ℚ → List (ℚ × ℚ)
  | 0, _, _ => []
  | m + 1, k, y =>
      let y2 := y + stp * f (x0 + (k : ℚ) * stp) y
      (x0 + ((k : ℚ) + 1) * stp, y2) :: eulerGo f x0 stp m (k + 1) y2

/-- `app/domain/numerics/euler.py::euler_solve`. -/
def euler_solve (f : ℚ → ℚ → ℚ) (x0 y0 h x_end : ℚ) :
    Except SolveError (List ℚ × List ℚ) :=
  if h ≤ 0 then .error .stepNotPositive
  else
    let n_steps := pythonRound ((x_end - x0) / h)
    if n_steps ≤ 0 then .error .inconsistentDomain
    else
      let steps := eulerGo f x0 h n_steps.toNat 0 y0
      .ok (x0 :: steps.map Prod.fst, y0 :: steps.map Prod.snd)

/-- The `for k in range(n_steps)` loop of `rk4_solve` with its four stages.
The first argument counts the remaining iterations. -/
def rk4Go (f : ℚ → ℚ → ℚ) (x0 stp : ℚ) : ℕ → ℕ → ℚ → List (ℚ × ℚ)
  | 0, _, _ => []
  | m + 1, k, y =>
      let x := x0 + (k : ℚ) * stp
      let k1 := f x y
      let k2 := f (x + stp / 2) (y + stp * k1 / 2)
      let k3 := f (x + stp / 2) (y + stp * k2 / 2)
      let k4 := f (x + stp) (y + stp * k3)
      let y2 := y + (stp / 6) * (k1 + 2 * k2 + 2 * k3 + k4)
      (x0 + ((k : ℚ) + 1) * stp, y2) :: rk4Go f x0 stp m (k + 1) y2

/-- `app/domain/numerics/rk4.py::rk4_solve`. -/
def rk4_solve (f : ℚ → ℚ → ℚ) (x0 y0 h x_end : ℚ) :
    Except SolveError (List ℚ × List ℚ) :=
  if h ≤ 0 then .error .stepNotPositive
  else
    let n_steps := pythonRound ((x_end - x0) / h)
    if n_steps ≤ 0 then .error .inconsistentDomain
    else
      let steps := rk4Go f x0 h n_steps.toNat 0 y0
      .ok (x0 :: steps.map Prod.fst, y0 :: steps.map Prod.snd)

/-- The loop of `app/services/euler_solver.py::euler_solver`: walk the grid,
stepping with the actual local spacing `h_n = grid[i+1] - grid[i]`. -/
def euler_over_grid (f : ℚ → ℚ → ℚ) : List ℚ → ℚ → List ℚ
  | [], y => [y]
  | [_], y => [y]
  | t0 :: t1 :: rest, y =>
      y :: euler_over_grid f (t1 :: rest) (y + (t1 - t0) * f t0 y)

/-- `app/services/euler_solver.py::euler_solver`. -/
def euler_solver (f : ℚ → ℚ → ℚ) (t0 y0 T h : ℚ) :
    Except GridError (List ℚ × List ℚ) :=
  (build_time_grid t0 T h).map fun grid => (grid, euler_over_grid f grid y0)

/-- The loop of `app/services/rk4_solver.py::rk4_solver`: four RK4 stages per
grid interval, using the actual local spacing `h_n = grid[i+1] - grid[i]`. -/
def rk4GridStep (f : ℚ → ℚ → ℚ) (t0 t1 y : ℚ) : ℚ :=
  let hn := t1 - t0
  let k1 := f t0 y
  let k2 := f (t0 + 1/2 * hn) (y + 1/2 * hn * k1)
  let k3 := f (t0 + 1/2 * hn) (y + 1/2 * hn * k2)
  let k4 := f (t0 + hn) (y + hn * k3)
  y + (hn / 6) * (k1 + 2*k2 + 2*k3 + k4)

def rk4_over_grid (f : ℚ → ℚ → ℚ) : List ℚ → ℚ → List ℚ
  | [], y => [y]
  | [_], y => [y]
  | t0 :: t1 :: rest, y => y :: rk4_over_grid f (t1 :: rest) (rk4GridStep f t0 t1 y)

/-- `app/services/rk4_solver.py::rk4_solver`. -/
def rk4_solver (f : ℚ → ℚ → ℚ) (t0 y0 T h : ℚ) :
    Except GridError (List ℚ × List ℚ) :=
  (build_time_grid t0 T h).map fun grid => (grid, rk4_over_grid f grid y0)

/-- The `ValueError` of `app/services/error_metrics.py::absolute_errors`
(and of `comparison_service.py::compute_pointwise_errors`). -/
inductive MetricError where
  | lengthMismatch
deriving DecidableEq, Repr

/-- `app/services/error_metrics.py::absolute_errors`.  A reference sample of
`none` stands for Python's `NaN` (detected there by `e != e`); in that case
the pointwise error is itself `NaN`, otherwise it is `|a - e|`. -/
def absolute_errors (approx : List ℚ) (exact : Option (List (Option ℚ))) :
    Except MetricError (Option (List (Option ℚ))) :=
  match exact with
  | none => .ok none
  | some ex =>
      if approx.length ≠ ex.length then .error .lengthMismatch
      else .ok (some (List.zipWith
        (fun a e => match e with
          | none => none
          | some ev => some |a - ev|) approx ex))

/-- The `{max, rmse}` summary of `error_metrics.py`, with the RMSE stored
squared (`rmse_sq` = mean of the squared valid errors, so that the real RMSE
is `Real.sqrt rmse_sq`). -/
structure ErrorSummaryQ where
  maxErr : Option ℚ
  rmse_sq : Option ℚ
deriving DecidableEq, Repr

/-- `app/services/error_metrics.py::summary_error_metrics`: computes
`absolute_errors`, filters out the `NaN` entries, and takes max and
(squared) RMSE of the survivors; `{max: None, rmse: None}` if none survive. -/
def summary_error_metrics (approx : List ℚ) (exact : Option (List (Option ℚ))) :
    Except MetricError (Option ErrorSummaryQ) :=
  match exact with
  | none => .ok none
  | some _ =>
      (absolute_errors approx exact).map fun errs =>
        match errs with
        | none => none
        | some es =>
            let valid := es.filterMap id
            match valid with
            | [] => some ⟨none, none⟩
            | v :: vs =>
                some ⟨some (vs.foldl max v),
                      some ((valid.map fun e => e * e).sum / valid.length)⟩

/-- The `SimpleError` record of `comparison_service.py`, `rmse` stored
squared (`rmse_sq` is the mean square error `mse`; the source stores
`math.sqrt(mse)`). -/
structure SimpleErrorQ where
  maxErr : ℚ
  rmse_sq : ℚ
deriving DecidableEq, Repr

/-- `app/services/comparison_service.py::compute_pointwise_errors`. -/
def compute_pointwise_errors (y_num y_ref : List ℚ) :
    Except MetricError SimpleErrorQ :=
  if y_num.length ≠ y_ref.length then .error .lengthMismatch
  else if y_num.length = 0 then .ok ⟨0, 0⟩
  else
    let errors := List.zipWith (fun a b => |a - b|) y_num y_ref
    .ok ⟨errors.foldl max 0, (errors.map fun e => e * e).sum / y_num.length⟩

/-- `app/services/solver_service.py::_build_grid`. -/
def _build_grid (x0 x_end h : ℚ) : Except SolveError (List ℚ) :=
  if h ≤ 0 then .error .stepNotPositive
  else
    let n_steps := pythonRound ((x_end - x0) / h)
    if n_steps ≤ 0 then .error .inconsistentDomain
    else .ok ((List.range (n_steps.toNat + 1)).map fun i : ℕ => x0 + (i : ℚ) * h)

/-- The `best_method` selection loop of `solve_benchmark`
(`solver_service.py`): iterate the `(name, rmse)` pairs in request order and
keep the first strict improver (`err.rmse < best_rmse`); the rmse values are
carried squared, which preserves the comparisons since `sqrt` is strictly
monotone.  The accumulator starts as `(None, None)`; `bestStep` is the loop
body, `selectBest` the whole loop. -/
def bestStep (best : Option String × Option ℚ) (p : String × ℚ) :
    Option String × Option ℚ :=
  match best.2 with
  | none => (some p.1, some p.2)
  | some br => if p.2 < br then (some p.1, some p.2) else best

def selectBest (l : List (String × ℚ)) : Option String × Option ℚ :=
  l.foldl bestStep (none, none)

/-- Equation descriptor of a `CompareRequest`: a predefined equation comes
with its numeric `f` and (for the catalogued ids) an analytic solution; a
custom one only with `f`.  Parsing/symbolics are the external collaborator's
job, so the callables arrive ready-made. -/
inductive EquationInputQ where
  | predefined (f : ℚ → ℚ → ℚ) (analytic : Option (ℚ → ℚ))
  | custom (f : ℚ → ℚ → ℚ)

/-- `comparison_mode` of a `CompareRequest`. -/
inductive CompMode where
  | solo_numeric
  | contra_analitica
  | entre_metodos
deriving DecidableEq, Repr

/-- A `CompareRequest` (`app/schemas/ode_schemas.py`), reduced to the fields
`solve_benchmark` reads. -/
structure CompareReq where
  equation : EquationInputQ
  x0 : ℚ
  y0 : ℚ
  x_end : ℚ
  step : ℚ
  methods : List String
  comparison_mode : CompMode

/-- Error surface of `solve_benchmark` (each is an `HTTPException(400)` in
the source, distinguished here by its `detail` message). -/
inductive BenchError where
  | invalidDomain
  | unsupportedComparison
  | unsupportedMethod (name : String)
  | solveFailed (e : SolveError)
  | metricFailed (e : MetricError)
deriving Repr

/-- One entry of `methods_results` in `solve_benchmark`. -/
structure MethodResultQ where
  name : String
  xs : List ℚ
  ys : List ℚ
  order : ℕ
deriving Repr

/-- The response fields of `solve_benchmark` that carry numeric content. -/
structure BenchResponseQ where
  methods_results : List MethodResultQ
  analytic_ys : Option (List ℚ)
  vs_analytic : Option (List (String × SimpleErrorQ))
  between_methods : Option SimpleErrorQ
  best_method : Option String
deriving Repr

/-- `EquationInputQ.isCustom`, the `req.equation.type == "custom"` test. -/
def EquationInputQ.isCustom : EquationInputQ → Bool
  | .custom _ => true
  | .predefined _ _ => false

/-- The numeric callable of the request's equation. -/
def EquationInputQ.fnum : EquationInputQ → (ℚ → ℚ → ℚ)
  | .custom f => f
  | .predefined f _ => f

/-- The analytic callable of the request's equation, when it exists
(`_prepare_equation` returns `None` for custom equations). -/
def EquationInputQ.analyticFn : EquationInputQ → Option (ℚ → ℚ)
  | .custom _ => none
  | .predefined _ a => a

/-- `app/services/solver_service.py::solve_benchmark`, parameterized by the
two integrator implementations (the source calls `euler_solve` and
`rk4_solve`; keeping them as parameters records exactly where they are
consulted: a path that never applies them builds no grid and runs no
integrator).  Stages in source order: `_validate_domain`,
`_prepare_equation`, the custom/`contra_analitica` rejection, the
per-method integration loop, then metrics and best-method selection. -/
def solve_benchmark
    (eulerImpl rk4Impl :
      (ℚ → ℚ → ℚ) → ℚ → ℚ → ℚ → ℚ → Except SolveError (List ℚ × List ℚ))
    (req : CompareReq) : Except BenchError BenchResponseQ :=
  if req.x_end ≤ req.x0 then .error .invalidDomain
  else
    let f := req.equation.fnum
    let analytic_fn := req.equation.analyticFn
    if req.equation.isCustom ∧ req.comparison_mode = .contra_analitica then
      .error .unsupportedComparison
    else do
      let methods_results ← req.methods.foldlM
        (fun (acc : List MethodResultQ) method_name => do
          if method_name = "Euler" then
            match eulerImpl f req.x0 req.y0 req.step req.x_end with
            | .error e => throw (.solveFailed e)
            | .ok (xs, ys) => pure (acc ++ [⟨method_name, xs, ys, 1⟩])
          else if method_name = "RK4" then
            match rk4Impl f req.x0 req.y0 req.step req.x_end with
            | .error e => throw (.solveFailed e)
            | .ok (xs, ys) => pure (acc ++ [⟨method_name, xs, ys, 4⟩])
          else throw (.unsupportedMethod method_name))
        []
      match req.comparison_mode, analytic_fn with
      | .contra_analitica, some afn | .entre_metodos, some afn =>
          let xs_ref := (methods_results.headD ⟨"", [], [], 0⟩).xs
          let ys_analytic := xs_ref.map afn
          let vs_analytic ← methods_results.mapM (fun mr => do
            match compute_pointwise_errors mr.ys ys_analytic with
            | .error e => throw (.metricFailed e)
            | .ok err => pure (mr.name, err))
          let between_methods ←
            if methods_results.length ≥ 2 then
              match compute_pointwise_errors
                  (methods_results.getD 0 ⟨"", [], [], 0⟩).ys
                  (methods_results.getD 1 ⟨"", [], [], 0⟩).ys with
              | .error e => throw (.metricFailed e)
              | .ok err => pure (some err)
            else pure none
          let best := selectBest (vs_analytic.map fun p => (p.1, p.2.rmse_sq))
          pure ⟨methods_results, some ys_analytic, some vs_analytic,
                between_methods, best.1⟩
      | .entre_metodos, none =>
          if methods_results.length ≥ 2 then do
            let between_methods ←
              match compute_pointwise_errors
                  (methods_results.getD 0 ⟨"", [], [], 0⟩).ys
                  (methods_results.getD 1 ⟨"", [], [], 0⟩).ys with
              | .error e => throw (.metricFailed e)
              | .ok err => pure (some err)
            let names := methods_results.map MethodResultQ.name
            let best := if names.contains "RK4" then "RK4" else names.headD ""
            pure ⟨methods_results, none, none, between_methods, some best⟩
          else pure ⟨methods_results, none, none, none, none⟩
      | _, _ => pure ⟨methods_results, none, none, none, none⟩

/-! ### Closed forms and helper lemmas -/

/-- Closed form of the Euler iteration: the value of `y` after `k` steps of
`euler_solve`'s loop. -/
def eulerIter (f : ℚ → ℚ → ℚ) (x0 stp y0 : ℚ) : ℕ → ℚ
  | 0 => y0
  | k + 1 =>
      eulerIter f x0 stp y0 k +
        stp * f (x0 + (k : ℚ) * stp) (eulerIter f x0 stp y0 k)

/-- Closed form of the RK4 iteration: the value of `y` after `k` steps of
`rk4_solve`'s loop. -/
def rk4Iter (f : ℚ → ℚ → ℚ) (x0 stp y0 : ℚ) : ℕ → ℚ
  | 0 => y0
  | k + 1 =>
      let y := rk4Iter f x0 stp y0 k
      let x := x0 + (k : ℚ) * stp
      let k1 := f x y
      let k2 := f (x + stp / 2) (y + stp * k1 / 2)
      let k3 := f (x + stp / 2) (y + stp * k2 / 2)
      let k4 := f (x + stp) (y + stp * k3)
      y + (stp / 6) * (k1 + 2 * k2 + 2 * k3 + k4)

theorem eulerGo_closed (f : ℚ → ℚ → ℚ) (x0 stp y0 : ℚ) :
    ∀ (m k : ℕ), eulerGo f x0 stp m k (eulerIter f x0 stp y0 k) =
      (List.range m).map
        (fun j => (x0 + ((k + j : ℕ) + 1 : ℚ) * stp,
                   eulerIter f x0 stp y0 (k + j + 1))) := by
  intro m
  induction m with
  | zero => intro k; simp [eulerGo]
  | succ m ih =>
      intro k
      rw [List.range_succ_eq_map, List.map_cons, List.map_map]
      show (x0 + ((k : ℚ) + 1) * stp, _) ::
          eulerGo f x0 stp m (k + 1) (eulerIter f x0 stp y0 (k + 1)) = _
      rw [ih (k + 1)]
      congr 1
      apply List.map_congr_left
      intro j _
      simp only [Function.comp]
      refine congrArg₂ Prod.mk ?_ ?_
      · push_cast
        ring
      · congr 1
        omega

theorem rk4Go_closed (f : ℚ → ℚ → ℚ) (x0 stp y0 : ℚ) :
    ∀ (m k : ℕ), rk4Go f x0 stp m k (rk4Iter f x0 stp y0 k) =
      (List.range m).map
        (fun j => (x0 + ((k + j : ℕ) + 1 : ℚ) * stp,
                   rk4Iter f x0 stp y0 (k + j + 1))) := by
  intro m
  induction m with
  | zero => intro k; simp [rk4Go]
  | succ m ih =>
      intro k
      rw [List.range_succ_eq_map, List.map_cons, List.map_map]
      show (x0 + ((k : ℚ) + 1) * stp, _) ::
          rk4Go f x0 stp m (k + 1) (rk4Iter f x0 stp y0 (k + 1)) = _
      rw [ih (k + 1)]
      congr 1
      apply List.map_congr_left
      intro j _
      simp only [Function.comp]
      refine congrArg₂ Prod.mk ?_ ?_
      · push_cast
        ring
      · congr 1
        omega

theorem eulerGo_zero (f : ℚ → ℚ → ℚ) (x0 stp y0 : ℚ) (m : ℕ) :
    eulerGo f x0 stp m 0 y0 =
      (List.range m).map
        (fun j : ℕ => (x0 + ((j : ℚ) + 1) * stp, eulerIter f x0 stp y0 (j + 1))) := by
  have hcl := eulerGo_closed f x0 stp y0 m 0
  rw [show eulerIter f x0 stp y0 0 = y0 from rfl] at hcl
  rw [hcl]
  apply List.map_congr_left
  intro j _
  refine congrArg₂ Prod.mk ?_ ?_
  · push_cast
    ring
  · congr 1
    omega

theorem rk4Go_zero (f : ℚ → ℚ → ℚ) (x0 stp y0 : ℚ) (m : ℕ) :
    rk4Go f x0 stp m 0 y0 =
      (List.range m).map
        (fun j : ℕ => (x0 + ((j : ℚ) + 1) * stp, rk4Iter f x0 stp y0 (j + 1))) := by
  have hcl := rk4Go_closed f x0 stp y0 m 0
  rw [show rk4Iter f x0 stp y0 0 = y0 from rfl] at hcl
  rw [hcl]
  apply List.map_congr_left
  intro j _
  refine congrArg₂ Prod.mk ?_ ?_
  · push_cast
    ring
  · congr 1
    omega

theorem cons_map_range {α : Type} (a : α) (g : ℕ → α) (n : ℕ)
    (ha : a = g 0) :
    a :: (List.range n).map (fun j => g (j + 1)) = (List.range (n + 1)).map g := by
  rw [List.range_succ_eq_map, List.map_cons, List.map_map, ha]
  congr 1

theorem euler_solve_ok {f : ℚ → ℚ → ℚ} {x0 y0 h x_end : ℚ} {xs ys : List ℚ}
    (hok : euler_solve f x0 y0 h x_end = .ok (xs, ys)) :
    0 < h ∧ 0 < pythonRound ((x_end - x0) / h) ∧
    xs = (List.range ((pythonRound ((x_end - x0) / h)).toNat + 1)).map
      (fun j : ℕ => x0 + (j : ℚ) * h) ∧
    ys = (List.range ((pythonRound ((x_end - x0) / h)).toNat + 1)).map
      (fun j : ℕ => eulerIter f x0 h y0 j) := by
  by_cases h1 : h ≤ 0
  · simp [euler_solve, h1] at hok
  by_cases h2 : pythonRound ((x_end - x0) / h) ≤ 0
  · simp [euler_solve, h1, h2] at hok
  refine ⟨not_le.mp h1, not_le.mp h2, ?_, ?_⟩
  all_goals
    simp only [euler_solve, if_neg h1, if_neg h2, eulerGo_zero, List.map_map,
      Except.ok.injEq, Prod.mk.injEq] at hok
    obtain ⟨hxs, hys⟩ := hok
    subst hxs hys
  · rw [← cons_map_range x0 (fun j : ℕ => x0 + (j : ℚ) * h) _ (by push_cast; ring)]
    congr 1
    all_goals
      apply List.map_congr_left
      intro j _
      simp [Function.comp]
  · rw [← cons_map_range y0 (fun j : ℕ => eulerIter f x0 h y0 j) _ rfl]
    congr 1
    all_goals
      apply List.map_congr_left
      intro j _
      simp [Function.comp]

theorem rk4_solve_ok {f : ℚ → ℚ → ℚ} {x0 y0 h x_end : ℚ} {xs ys : List ℚ}
    (hok : rk4_solve f x0 y0 h x_end = .ok (xs, ys)) :
    0 < h ∧ 0 < pythonRound ((x_end - x0) / h) ∧
    xs = (List.range ((pythonRound ((x_end - x0) / h)).toNat + 1)).map
      (fun j : ℕ => x0 + (j : ℚ) * h) ∧
    ys = (List.range ((pythonRound ((x_end - x0) / h)).toNat + 1)).map
      (fun j : ℕ => rk4Iter f x0 h y0 j) := by
  by_cases h1 : h ≤ 0
  · simp [rk4_solve, h1] at hok
  by_cases h2 : pythonRound ((x_end - x0) / h) ≤ 0
  · simp [rk4_solve, h1, h2] at hok
  refine ⟨not_le.mp h1, not_le.mp h2, ?_, ?_⟩
  all_goals
    simp only [rk4_solve, if_neg h1, if_neg h2, rk4Go_zero, List.map_map,
      Except.ok.injEq, Prod.mk.injEq] at hok
    obtain ⟨hxs, hys⟩ := hok
    subst hxs hys
  · rw [← cons_map_range x0 (fun j : ℕ => x0 + (j : ℚ) * h) _ (by push_cast; ring)]
    congr 1
    all_goals
      apply List.map_congr_left
      intro j _
      simp [Function.comp]
  · rw [← cons_map_range y0 (fun j : ℕ => rk4Iter f x0 h y0 j) _ rfl]
    congr 1
    all_goals
      apply List.map_congr_left
      intro j _
      simp [Function.comp]

theorem getD_map_range {α : Type} (g : ℕ → α) (n i : ℕ) (d : α) :
    ((List.range n).map g).getD i d = if i < n then g i else d := by
  by_cases hi : i < n
  · rw [if_pos hi, List.getD_eq_getElem?_getD, List.getElem?_map,
      List.getElem?_range hi]
    rfl
  · rw [if_neg hi, List.getD_eq_getElem?_getD,
      List.getElem?_eq_none (by simpa using not_lt.mp hi)]
    rfl

theorem euler_over_grid_head (f : ℚ → ℚ → ℚ) (grid : List ℚ) (y0 : ℚ) :
    (euler_over_grid f grid y0).getD 0 0 = y0 := by
  cases grid with
  | nil => rfl
  | cons t0 rest =>
      cases rest with
      | nil => rfl
      | cons t1 r => rfl

theorem rk4_over_grid_head (f : ℚ → ℚ → ℚ) (grid : List ℚ) (y0 : ℚ) :
    (rk4_over_grid f grid y0).getD 0 0 = y0 := by
  cases grid with
  | nil => rfl
  | cons t0 rest =>
      cases rest with
      | nil => rfl
      | cons t1 r => rfl

theorem euler_over_grid_length (f : ℚ → ℚ → ℚ) :
    ∀ (grid : List ℚ) (y0 : ℚ),
      (euler_over_grid f grid y0).length = max grid.length 1 := by
  intro grid
  induction grid with
  | nil => intro y0; rfl
  | cons t0 rest ih =>
      intro y0
      cases rest with
      | nil => rfl
      | cons t1 r =>
          have := ih (y0 + (t1 - t0) * f t0 y0)
          simp only [euler_over_grid, List.length_cons] at this ⊢
          omega

theorem rk4_over_grid_length (f : ℚ → ℚ → ℚ) :
    ∀ (grid : List ℚ) (y0 : ℚ),
      (rk4_over_grid f grid y0).length = max grid.length 1 := by
  intro grid
  induction grid with
  | nil => intro y0; rfl
  | cons t0 rest ih =>
      intro y0
      cases rest with
      | nil => rfl
      | cons t1 r =>
          have := ih (rk4GridStep f t0 t1 y0)
          simp only [rk4_over_grid, List.length_cons] at this ⊢
          omega

theorem euler_over_grid_rec (f : ℚ → ℚ → ℚ) :
    ∀ (grid : List ℚ) (y0 : ℚ) (i : ℕ), i + 1 < grid.length →
      (euler_over_grid f grid y0).getD (i + 1) 0 =
        (euler_over_grid f grid y0).getD i 0 +
          (grid.getD (i + 1) 0 - grid.getD i 0) *
            f (grid.getD i 0) ((euler_over_grid f grid y0).getD i 0) := by
  intro grid
  induction grid with
  | nil => intro y0 i hi; simp at hi
  | cons t0 rest ih =>
      intro y0 i hi
      cases rest with
      | nil => simp at hi
      | cons t1 r =>
          cases i with
          | zero =>
              show (euler_over_grid f (t1 :: r) (y0 + (t1 - t0) * f t0 y0)).getD 0 0 = _
              rw [euler_over_grid_head]
              rw [show (euler_over_grid f (t0 :: t1 :: r) y0).getD 0 0 = y0 from
                euler_over_grid_head f _ y0]
              rfl
          | succ i =>
              have hi' : i + 1 < (t1 :: r).length := by
                simp only [List.length_cons] at hi ⊢
                omega
              show (euler_over_grid f (t1 :: r) (y0 + (t1 - t0) * f t0 y0)).getD (i + 1) 0 = _
              rw [ih (y0 + (t1 - t0) * f t0 y0) i hi']
              rfl

theorem rk4_over_grid_rec (f : ℚ → ℚ → ℚ) :
    ∀ (grid : List ℚ) (y0 : ℚ) (i : ℕ), i + 1 < grid.length →
      (rk4_over_grid f grid y0).getD (i + 1) 0 =
        (let tn := grid.getD i 0
         let yn := (rk4_over_grid f grid y0).getD i 0
         let hn := grid.getD (i + 1) 0 - grid.getD i 0
         let k1 := f tn yn
         let k2 := f (tn + hn / 2) (yn + hn * k1 / 2)
         let k3 := f (tn + hn / 2) (yn + hn * k2 / 2)
         let k4 := f (tn + hn) (yn + hn * k3)
         yn + (hn / 6) * (k1 + 2 * k2 + 2 * k3 + k4)) := by
  intro grid
  induction grid with
  | nil => intro y0 i hi; simp at hi
  | cons t0 rest ih =>
      intro y0 i hi
      cases rest with
      | nil => simp at hi
      | cons t1 r =>
          cases i with
          | zero =>
              simp only [rk4_over_grid, List.getD_cons_succ, List.getD_cons_zero]
              rw [rk4_over_grid_head]
              simp only [rk4GridStep]
              ring_nf
          | succ i =>
              have hi' : i + 1 < (t1 :: r).length := by
                simp only [List.length_cons] at hi ⊢
                omega
              simp only [rk4_over_grid, List.getD_cons_succ]
              exact ih (rk4GridStep f t0 t1 y0) i hi'

/-- **C1**: for every time grid and every right-hand side `f`, the Euler
integrator returns the trajectory `y_0 = y0`,
`y_{n+1} = y_n + h_n * f(t_n, y_n)` with `h_n = t_{n+1} - t_n` the actual
spacing between consecutive grid points (so a shortened final sub-step is
integrated with its true length).  First part: the grid-walking
`euler_solver` loop; second part: the self-gridding `euler_solve`, whose
`(xs, ys)` output satisfies the same rule with `h_n = xs[n+1] - xs[n]`. -/
theorem euler_local_update_rule (f : ℚ → ℚ → ℚ) (grid : List ℚ) (y0 : ℚ) :
    ((euler_over_grid f grid y0).getD 0 0 = y0 ∧
     (euler_over_grid f grid y0).length = max grid.length 1 ∧
     ∀ i : ℕ, i + 1 < grid.length →
       (euler_over_grid f grid y0).getD (i + 1) 0 =
         (euler_over_grid f grid y0).getD i 0 +
           (grid.getD (i + 1) 0 - grid.getD i 0) *
             f (grid.getD i 0) ((euler_over_grid f grid y0).getD i 0)) ∧
    ∀ x0 h x_end xs ys, euler_solve f x0 y0 h x_end = .ok (xs, ys) →
      ys.getD 0 0 = y0 ∧ ys.length = xs.length ∧
      ∀ i : ℕ, i + 1 < xs.length →
        ys.getD (i + 1) 0 =
          ys.getD i 0 + (xs.getD (i + 1) 0 - xs.getD i 0) *
            f (xs.getD i 0) (ys.getD i 0) := by
  refine ⟨⟨euler_over_grid_head f grid y0, euler_over_grid_length f grid y0,
    euler_over_grid_rec f grid y0⟩, ?_⟩
  intro x0 h x_end xs ys hok
  obtain ⟨h0, hn, hxs, hys⟩ := euler_solve_ok hok
  subst hxs hys
  refine ⟨?_, ?_, ?_⟩
  · rw [getD_map_range]
    simp [eulerIter]
  · simp
  · intro i hi
    simp only [List.length_map, List.length_range] at hi
    have h2 : i < (pythonRound ((x_end - x0) / h)).toNat + 1 := by omega
    simp only [getD_map_range, if_pos hi, if_pos h2]
    simp only [eulerIter]
    push_cast
    ring

/-- Witness for C1 at `f(t,y) = t + y`, grid `[0, 1/2, 3/4]`, `y0 = 1`
(shortened final sub-step of length `1/4`), and at
`euler_solve` on `(x0, y0, h, x_end) = (0, 1, 1/2, 1)`. -/
theorem euler_local_update_rule_witness :
    euler_over_grid (fun t y => t + y) [0, 1/2, 3/4] 1 = [1, 3/2, 2] ∧
    (euler_over_grid (fun t y => t + y) [0, 1/2, 3/4] 1).getD 1 0 =
      (euler_over_grid (fun t y => t + y) [0, 1/2, 3/4] 1).getD 0 0 +
        (([0, 1/2, 3/4] : List ℚ).getD 1 0 - ([0, 1/2, 3/4] : List ℚ).getD 0 0) *
          ((fun t y => t + y) (([0, 1/2, 3/4] : List ℚ).getD 0 0)
            ((euler_over_grid (fun t y => t + y) [0, 1/2, 3/4] 1).getD 0 0)) ∧
    ([1, 3/2, 5/2] : List ℚ).getD 1 0 =
      ([1, 3/2, 5/2] : List ℚ).getD 0 0 +
        (([0, 1/2, 1] : List ℚ).getD 1 0 - ([0, 1/2, 1] : List ℚ).getD 0 0) *
          ((fun t y => t + y) (([0, 1/2, 1] : List ℚ).getD 0 0)
            (([1, 3/2, 5/2] : List ℚ).getD 0 0)) :=
  ⟨by with_unfolding_all decide,
   (euler_local_update_rule (fun t y => t + y) [0, 1/2, 3/4] 1).1.2.2 0 (by decide),
   (((euler_local_update_rule (fun t y => t + y) [0, 1/2, 1] 1).2
      0 (1/2) 1 [0, 1/2, 1] [1, 3/2, 5/2] (by with_unfolding_all rfl)).2.2) 0
     (by decide)⟩

/-- **C2**: for every time grid and every right-hand side `f`, the RK4
integrator returns the trajectory `y_0 = y0`,
`y_{n+1} = y_n + (h_n/6)(k1 + 2 k2 + 2 k3 + k4)` with
`k1 = f(t_n, y_n)`, `k2 = f(t_n + h_n/2, y_n + h_n k1/2)`,
`k3 = f(t_n + h_n/2, y_n + h_n k2/2)`, `k4 = f(t_n + h_n, y_n + h_n k3)`,
where `h_n = t_{n+1} - t_n` is the local spacing.  First part: the
grid-walking `rk4_solver` loop; second part: the self-gridding `rk4_solve`,
with `h_n = xs[n+1] - xs[n]`. -/
theorem rk4_local_update_rule (f : ℚ → ℚ → ℚ) (grid : List ℚ) (y0 : ℚ) :
    ((rk4_over_grid f grid y0).getD 0 0 = y0 ∧
     (rk4_over_grid f grid y0).length = max grid.length 1 ∧
     ∀ i : ℕ, i + 1 < grid.length →
       (rk4_over_grid f grid y0).getD (i + 1) 0 =
         (let tn := grid.getD i 0
          let yn := (rk4_over_grid f grid y0).getD i 0
          let hn := grid.getD (i + 1) 0 - grid.getD i 0
          let k1 := f tn yn
          let k2 := f (tn + hn / 2) (yn + hn * k1 / 2)
          let k3 := f (tn + hn / 2) (yn + hn * k2 / 2)
          let k4 := f (tn + hn) (yn + hn * k3)
          yn + (hn / 6) * (k1 + 2 * k2 + 2 * k3 + k4))) ∧
    ∀ x0 h x_end xs ys, rk4_solve f x0 y0 h x_end = .ok (xs, ys) →
      ys.getD 0 0 = y0 ∧ ys.length = xs.length ∧
      ∀ i : ℕ, i + 1 < xs.length →
        ys.getD (i + 1) 0 =
          (let tn := xs.getD i 0
           let yn := ys.getD i 0
           let hn := xs.getD (i + 1) 0 - xs.getD i 0
           let k1 := f tn yn
           let k2 := f (tn + hn / 2) (yn + hn * k1 / 2)
           let k3 := f (tn + hn / 2) (yn + hn * k2 / 2)
           let k4 := f (tn + hn) (yn + hn * k3)
           yn + (hn / 6) * (k1 + 2 * k2 + 2 * k3 + k4)) := by
  refine ⟨⟨rk4_over_grid_head f grid y0, rk4_over_grid_length f grid y0,
    rk4_over_grid_rec f grid y0⟩, ?_⟩
  intro x0 h x_end xs ys hok
  obtain ⟨h0, hn, hxs, hys⟩ := rk4_solve_ok hok
  subst hxs hys
  refine ⟨?_, ?_, ?_⟩
  · rw [getD_map_range]
    simp [rk4Iter]
  · simp
  · intro i hi
    simp only [List.length_map, List.length_range] at hi
    have h2 : i < (pythonRound ((x_end - x0) / h)).toNat + 1 := by omega
    simp only [getD_map_range, if_pos hi, if_pos h2]
    simp only [rk4Iter]
    push_cast
    ring_nf

/-- Witness for C2 at `f(t,y) = t + y`, grid `[0, 1/2]`, `y0 = 1`, and at
`rk4_solve` on `(x0, y0, h, x_end) = (0, 1, 1/2, 1)`. -/
theorem rk4_local_update_rule_witness :
    rk4_over_grid (fun t y => t + y) [0, 1/2] 1 = [1, 115/64] ∧
    (rk4_over_grid (fun t y => t + y) [0, 1/2] 1).getD 1 0 =
      (let tn := ([0, 1/2] : List ℚ).getD 0 0
       let yn := (rk4_over_grid (fun t y => t + y) [0, 1/2] 1).getD 0 0
       let hn := ([0, 1/2] : List ℚ).getD 1 0 - ([0, 1/2] : List ℚ).getD 0 0
       let k1 := (fun t y => t + y) tn yn
       let k2 := (fun t y => t + y) (tn + hn / 2) (yn + hn * k1 / 2)
       let k3 := (fun t y => t + y) (tn + hn / 2) (yn + hn * k2 / 2)
       let k4 := (fun t y => t + y) (tn + hn) (yn + hn * k3)
       yn + (hn / 6) * (k1 + 2 * k2 + 2 * k3 + k4)) ∧
    ([1, 115/64, 28137/8192] : List ℚ).getD 1 0 =
      (let tn := ([0, 1/2, 1] : List ℚ).getD 0 0
       let yn := ([1, 115/64, 28137/8192] : List ℚ).getD 0 0
       let hn := ([0, 1/2, 1] : List ℚ).getD 1 0 - ([0, 1/2, 1] : List ℚ).getD 0 0
       let k1 := (fun t y => t + y) tn yn
       let k2 := (fun t y => t + y) (tn + hn / 2) (yn + hn * k1 / 2)
       let k3 := (fun t y => t + y) (tn + hn / 2) (yn + hn * k2 / 2)
       let k4 := (fun t y => t + y) (tn + hn) (yn + hn * k3)
       yn + (hn / 6) * (k1 + 2 * k2 + 2 * k3 + k4)) :=
  ⟨by with_unfolding_all decide,
   (rk4_local_update_rule (fun t y => t + y) [0, 1/2] 1).1.2.2 0 (by decide),
   (((rk4_local_update_rule (fun t y => t + y) [0, 1/2, 1] 1).2
      0 (1/2) 1 [0, 1/2, 1] [1, 115/64, 28137/8192]
      (by with_unfolding_all rfl)).2.2) 0 (by decide)⟩

theorem pyInt_of_nonneg {q : ℚ} (h : 0 ≤ q) : pyInt q = ⌊q⌋ := if_pos h

theorem pythonRound_eq_zero {q : ℚ} (h0 : 0 < q) (h2 : q ≤ 1/2) :
    pythonRound q = 0 := by
  have hf : ⌊q⌋ = 0 := by
    rw [Int.floor_eq_zero_iff]
    constructor
    · exact h0.le
    · linarith
  unfold pythonRound
  rw [hf]
  rcases lt_or_eq_of_le h2 with hl | he
  · simp only [Int.cast_zero, sub_zero]
    rw [if_pos hl]
  · simp only [Int.cast_zero, sub_zero, he]
    norm_num

/-- **C7**: `build_time_grid` fails with the invalid-step error when
`h ≤ 0`, with the invalid-domain error when (`h > 0` and) `T ≤ t0`, and
with the grid-too-large error when (both previous checks pass and) the
estimated point count `⌊(T - t0)/h⌋ + 2` exceeds `max_points`, always
before any grid point is generated (the error is produced by the guard
prefix of the function, independently of the loop).  The default cap is
5000, and `build_time_grid 0 10000 0.001` with `max_points = 5000` fails
with the grid-too-large error. -/
theorem build_time_grid_guards (t0 T h : ℚ) (mp : ℕ) :
    (h ≤ 0 → build_time_grid t0 T h mp = .error .invalidStep) ∧
    (0 < h → T ≤ t0 → build_time_grid t0 T h mp = .error .invalidDomain) ∧
    (0 < h → t0 < T → (mp : ℤ) < ⌊(T - t0) / h⌋ + 2 →
      build_time_grid t0 T h mp = .error .gridTooLarge) ∧
    build_time_grid t0 T h = build_time_grid t0 T h 5000 ∧
    build_time_grid 0 10000 (1/1000) 5000 = .error .gridTooLarge := by
  refine ⟨?_, ?_, ?_, rfl, ?_⟩
  · intro hh
    simp [build_time_grid, hh]
  · intro h0 hT
    simp [build_time_grid, not_le.mpr h0, hT]
  · intro h0 hT hbig
    have hq : (0 : ℚ) ≤ (T - t0) / h := le_of_lt (div_pos (by linarith) h0)
    simp [build_time_grid, not_le.mpr h0, not_le.mpr hT, pyInt_of_nonneg hq, hbig]
  · have hs : pyInt ((10000 - 0 : ℚ) / (1/1000)) = 10000000 := by
      rw [pyInt_of_nonneg (by norm_num)]
      norm_num
    unfold build_time_grid
    rw [if_neg (by norm_num : ¬ ((1 : ℚ)/1000 ≤ 0)),
      if_neg (by norm_num : ¬ ((10000 : ℚ) ≤ 0)),
      if_pos (by rw [hs]; norm_num)]

/-- Witness for C7: `h = -1` gives the invalid-step error, `(t0, T) = (1, 0)`
with `h = 1` the invalid-domain error, and the spec's sizing example the
grid-too-large error. -/
theorem build_time_grid_guards_witness :
    build_time_grid 0 1 (-1) 5000 = .error .invalidStep ∧
    build_time_grid 1 0 1 5000 = .error .invalidDomain ∧
    build_time_grid 0 10000 (1/1000) 5000 = .error .gridTooLarge :=
  ⟨(build_time_grid_guards 0 1 (-1) 5000).1 (by norm_num),
   (build_time_grid_guards 1 0 1 5000).2.1 (by norm_num) (by norm_num),
   (build_time_grid_guards 0 0 0 0).2.2.2.2⟩

/-- **C10**: `euler_solve` and `rk4_solve` raise their `ValueError` without
ever calling `f` whenever `round((x_end - x0)/h) ≤ 0` (the result is the
same for every `f`, and is the step error for `h ≤ 0`, the
inconsistent-domain error otherwise); in particular every request with
`0 < x_end - x0 ≤ h/2` is rejected although it satisfies the Problem
invariant `h > 0`, `T > t0`. -/
theorem self_gridding_rejects_short_spans (f : ℚ → ℚ → ℚ)
    (x0 y0 h x_end : ℚ) :
    (pythonRound ((x_end - x0) / h) ≤ 0 →
      euler_solve f x0 y0 h x_end =
        .error (if h ≤ 0 then .stepNotPositive else .inconsistentDomain) ∧
      rk4_solve f x0 y0 h x_end =
        .error (if h ≤ 0 then .stepNotPositive else .inconsistentDomain)) ∧
    (0 < x_end - x0 → x_end - x0 ≤ h / 2 →
      euler_solve f x0 y0 h x_end = .error .inconsistentDomain ∧
      rk4_solve f x0 y0 h x_end = .error .inconsistentDomain) := by
  constructor
  · intro hr
    by_cases hh : h ≤ 0
    · simp [euler_solve, rk4_solve, hh]
    · simp [euler_solve, rk4_solve, hh, hr]
  · intro hd hsmall
    have hh : 0 < h := by linarith
    have hq : pythonRound ((x_end - x0) / h) = 0 := by
      apply pythonRound_eq_zero (div_pos hd hh)
      rw [div_le_iff₀ hh]
      linarith
    have hr : pythonRound ((x_end - x0) / h) ≤ 0 := le_of_eq hq
    simp [euler_solve, rk4_solve, not_le.mpr hh, hr]

/-- Witness for C10 at `(x0, x_end, h) = (0, 1/4, 1)`: the span `1/4` is
positive and at most `h/2`, and both solvers reject. -/
theorem self_gridding_rejects_short_spans_witness :
    euler_solve (fun t y => t + y) 0 1 1 (1/4) = .error .inconsistentDomain ∧
    rk4_solve (fun t y => t + y) 0 1 1 (1/4) = .error .inconsistentDomain :=
  (self_gridding_rejects_short_spans (fun t y => t + y) 0 1 1 (1/4)).2
    (by norm_num) (by norm_num)

theorem gridLoop_cons {h Ttol t : ℚ} (h0 : 0 < h) (ht : t < Ttol) :
    gridLoop h Ttol t = t :: gridLoop h Ttol (t + h) := by
  rw [gridLoop]
  exact dif_pos ⟨h0, ht⟩

theorem gridLoop_nil {h Ttol t : ℚ} (ht : ¬ t < Ttol) :
    gridLoop h Ttol t = [] := by
  rw [gridLoop]
  exact dif_neg (fun c => ht c.2)

theorem getLastD_map_range {α : Type} (g : ℕ → α) (n : ℕ) (d : α) :
    ((List.range (n + 1)).map g).getLastD d = g n := by
  rw [List.range_succ, List.map_append]
  exact List.getLastD_concat _ _ _

/-- **C3 (amended)**: the snap-last-point grid of `build_time_grid` starts at
`t0` and ends within `1e-8` of `T`; but the rounded-step-count grids built
inside `euler_solve`, `rk4_solve` and `_build_grid` start at `t0` and end at
`t0 + round((T - t0)/h) * h`, which is within `1e-8` of `T` only when
`(T - t0)/h` is close to an integer (the counterexample
`grid_endpoints_cex` shows a deviation of `1/10` for `t0 = 0, T = 1,
h = 3/10`). -/
theorem grid_endpoints (t0 T h : ℚ) (mp : ℕ) :
    (∀ g, build_time_grid t0 T h mp = .ok g →
      g.getD 0 0 = t0 ∧ |g.getLastD 0 - T| ≤ 1/100000000) ∧
    (∀ f y0 xs ys, euler_solve f t0 y0 h T = .ok (xs, ys) →
      xs.getD 0 0 = t0 ∧
      xs.getLastD 0 = t0 + (pythonRound ((T - t0) / h) : ℚ) * h) ∧
    (∀ f y0 xs ys, rk4_solve f t0 y0 h T = .ok (xs, ys) →
      xs.getD 0 0 = t0 ∧
      xs.getLastD 0 = t0 + (pythonRound ((T - t0) / h) : ℚ) * h) ∧
    (∀ g, _build_grid t0 T h = .ok g →
      g.getD 0 0 = t0 ∧
      g.getLastD 0 = t0 + (pythonRound ((T - t0) / h) : ℚ) * h) := by
  have hmap : ∀ (n : ℤ), 0 < n →
      ((List.range (n.toNat + 1)).map (fun j : ℕ => t0 + (j : ℚ) * h)).getD 0 0 = t0 ∧
      ((List.range (n.toNat + 1)).map (fun j : ℕ => t0 + (j : ℚ) * h)).getLastD 0 =
        t0 + (n : ℚ) * h := by
    intro n hn
    constructor
    · rw [getD_map_range]
      norm_num
    · rw [getLastD_map_range]
      have hcast : ((n.toNat : ℕ) : ℚ) = (n : ℚ) := by
        exact_mod_cast congrArg (fun z : ℤ => (z : ℚ)) (Int.toNat_of_nonneg hn.le)
      rw [hcast]
  refine ⟨?_, ?_, ?_, ?_⟩
  · intro g hok
    by_cases h1 : h ≤ 0
    · simp [build_time_grid, h1] at hok
    by_cases h2 : T ≤ t0
    · simp [build_time_grid, h1, h2] at hok
    by_cases h3 : (mp : ℤ) < pyInt ((T - t0) / h) + 2
    · simp [build_time_grid, h1, h2, h3] at hok
    have hcons : gridLoop h (T + 1/1000000000000) t0 =
        t0 :: gridLoop h (T + 1/1000000000000) (t0 + h) :=
      gridLoop_cons (not_le.mp h1) (by
        have := not_le.mp h2
        linarith)
    simp only [build_time_grid, if_neg h1, if_neg h2, if_neg h3] at hok
    split_ifs at hok with hsnap
    · obtain rfl : gridLoop h (T + 1/1000000000000) t0 ++ [T] = g :=
        Except.ok.inj hok
      constructor
      · rw [hcons, List.cons_append, List.getD_cons_zero]
      · rw [List.getLastD_concat]
        norm_num
    · obtain rfl : gridLoop h (T + 1/1000000000000) t0 = g :=
        Except.ok.inj hok
      constructor
      · rw [hcons, List.getD_cons_zero]
      · exact le_of_not_lt hsnap
  · intro f y0 xs ys hok
    obtain ⟨h0, hn, hxs, -⟩ := euler_solve_ok hok
    subst hxs
    exact hmap _ hn
  · intro f y0 xs ys hok
    obtain ⟨h0, hn, hxs, -⟩ := rk4_solve_ok hok
    subst hxs
    exact hmap _ hn
  · intro g hok
    by_cases h1 : h ≤ 0
    · simp [_build_grid, h1] at hok
    by_cases h2 : pythonRound ((T - t0) / h) ≤ 0
    · simp [_build_grid, h1, h2] at hok
    simp only [_build_grid, if_neg h1, if_neg h2] at hok
    obtain rfl := Except.ok.inj hok
    exact hmap _ (not_le.mp h2)

/-- Counterexample for C3 as frozen: with the perfectly valid inputs
`t0 = 0, T = 1, h = 3/10` (positive step, `T > t0`, far below the size
cap), the rounded-step-count grid built inside `euler_solve` ends at
`9/10`, which is `1/10` away from `T = 1` — far beyond the claimed `1e-8`
tolerance. -/
theorem grid_endpoints_cex :
    (euler_solve (fun _ _ => 0) 0 0 (3/10) 1).toOption.map
        (fun p => p.1.getLastD 0) = some (9/10) ∧
    ¬ (|(9/10 : ℚ) - 1| ≤ 1/100000000) ∧ ((0 : ℚ) < 3/10) ∧ ((0 : ℚ) < 1) :=
  ⟨by with_unfolding_all rfl,
   by
    rw [show |(9/10 : ℚ) - 1| = 1/10 by
      rw [abs_of_nonpos (by norm_num)]
      norm_num]
    norm_num,
   by norm_num, by norm_num⟩

/-- Witness for C3 (amended) on `(t0, T, h) = (0, 1, 3/10)`: the snapped
`build_time_grid` grid is `[0, 3/10, 3/5, 9/10, 1]` (first element `0`,
last exactly `T`), while `euler_solve`'s own grid ends at
`0 + round(10/3) * (3/10) = 9/10`. -/
theorem grid_endpoints_witness :
    (([0, 3/10, 3/5, 9/10, 1] : List ℚ).getD 0 0 = 0 ∧
      |([0, 3/10, 3/5, 9/10, 1] : List ℚ).getLastD 0 - 1| ≤ 1/100000000) ∧
    ([0, 3/10, 3/5, 9/10] : List ℚ).getD 0 0 = 0 ∧
    ([0, 3/10, 3/5, 9/10] : List ℚ).getLastD 0 =
      0 + (pythonRound ((1 - 0) / (3/10)) : ℚ) * (3/10) := by
  have hgl : gridLoop (3/10) (1 + 1/1000000000000) 0 = [0, 3/10, 3/5, 9/10] := by
    rw [gridLoop_cons (by norm_num) (by norm_num),
      gridLoop_cons (by norm_num) (by norm_num),
      gridLoop_cons (by norm_num) (by norm_num),
      gridLoop_cons (by norm_num) (by norm_num),
      gridLoop_nil (by norm_num)]
    norm_num
  have hok : build_time_grid 0 1 (3/10) 5000 = .ok [0, 3/10, 3/5, 9/10, 1] := by
    unfold build_time_grid
    rw [if_neg (by norm_num : ¬ ((3 : ℚ)/10 ≤ 0)),
      if_neg (by norm_num : ¬ ((1 : ℚ) ≤ 0)),
      if_neg (by
        rw [pyInt_of_nonneg (by norm_num)]
        norm_num),
      hgl]
    rw [if_pos (by
      rw [show ([0, 3/10, 3/5, 9/10] : List ℚ).getLastD 0 = 9/10 by rfl]
      rw [show |(9/10 : ℚ) - 1| = 1/10 by
        rw [abs_of_nonpos (by norm_num)]
        norm_num]
      norm_num)]
    rfl
  have heok : euler_solve (fun _ _ => (0 : ℚ)) 0 0 (3/10) 1 =
      .ok ([0, 3/10, 3/5, 9/10], [0, 0, 0, 0]) := by
    with_unfolding_all rfl
  refine ⟨(grid_endpoints 0 1 (3/10) 5000).1 _ hok,
    ((grid_endpoints 0 1 (3/10) 5000).2.1 (fun _ _ => 0) 0 _ _ heok).1,
    ((grid_endpoints 0 1 (3/10) 5000).2.1 (fun _ _ => 0) 0 _ _ heok).2⟩

theorem zipWith_getD {α β γ : Type} (f : α → β → γ) :
    ∀ (l : List α) (l' : List β) (i : ℕ) (d : γ) (da : α) (db : β),
      i < l.length → i < l'.length →
      (List.zipWith f l l').getD i d = f (l.getD i da) (l'.getD i db) := by
  intro l
  induction l with
  | nil => intro l' i d da db hi _; simp at hi
  | cons a t ih =>
      intro l' i d da db hi hi'
      cases l' with
      | nil => simp at hi'
      | cons b t' =>
          cases i with
          | zero => rfl
          | succ i =>
              simp only [List.zipWith_cons_cons, List.getD_cons_succ]
              exact ih t' i d da db (by simpa using hi) (by simpa using hi')

theorem le_foldl_max_init : ∀ (vs : List ℚ) (v b : ℚ), b ≤ v →
    b ≤ vs.foldl max v := by
  intro vs
  induction vs with
  | nil => intro v b hb; simpa using hb
  | cons a t ih =>
      intro v b hb
      exact ih (max v a) b (le_trans hb (le_max_left v a))

theorem foldl_max_mem : ∀ (vs : List ℚ) (v : ℚ), vs.foldl max v ∈ v :: vs := by
  intro vs
  induction vs with
  | nil => intro v; simp
  | cons a t ih =>
      intro v
      simp only [List.foldl_cons]
      rcases List.mem_cons.mp (ih (max v a)) with he | ht
      · rcases max_choice v a with hv | ha
        · rw [he, hv]
          exact List.mem_cons_self _ _
        · rw [he, ha]
          exact List.mem_cons.mpr (Or.inr (List.mem_cons_self a t))
      · exact List.mem_cons.mpr (Or.inr (List.mem_cons.mpr (Or.inr ht)))

theorem le_foldl_max_of_mem : ∀ (vs : List ℚ) (v e : ℚ), e ∈ v :: vs →
    e ≤ vs.foldl max v := by
  intro vs
  induction vs with
  | nil =>
      intro v e he
      simp only [List.mem_cons, List.not_mem_nil, or_false] at he
      simp [he]
  | cons a t ih =>
      intro v e he
      simp only [List.foldl_cons]
      rcases List.mem_cons.mp he with he2 | h2
      · rw [he2]
        exact le_foldl_max_init t (max v a) v (le_max_left v a)
      · rcases List.mem_cons.mp h2 with he3 | h3
        · rw [he3]
          exact le_foldl_max_init t (max v a) a (le_max_right v a)
        · exact ih (max v a) e (List.mem_cons.mpr (Or.inr h3))

theorem zip_abs_none : ∀ (approx : List ℚ) (ex : List (Option ℚ)),
    (∀ e ∈ ex, e = none) →
    (List.zipWith (fun a e => Option.map (fun ev => |a - ev|) e)
      approx ex).filterMap id = [] := by
  intro approx
  induction approx with
  | nil => intro ex _; simp
  | cons a t ih =>
      intro ex h
      cases ex with
      | nil => simp
      | cons e es =>
          have he : e = none := h e (List.mem_cons_self e es)
          subst he
          simp [ih es (fun e' he' => h e' (List.mem_cons_of_mem _ he'))]

/-- **C6**: `absolute_errors` returns `None` when the reference is `None`;
it fails with the length-mismatch error exactly when the reference is
present and the lengths differ; otherwise it returns a list of the same
length whose `i`-th entry is `NaN` (`none`) when the reference's `i`-th
entry is `NaN` and `|approx[i] - exact[i]|` otherwise — index alignment is
preserved and `NaN` entries are not dropped. -/
theorem absolute_errors_spec (approx : List ℚ) (ex : List (Option ℚ)) :
    absolute_errors approx none = .ok none ∧
    (absolute_errors approx (some ex) = .error .lengthMismatch ↔
      approx.length ≠ ex.length) ∧
    (approx.length = ex.length →
      ∃ errs : List (Option ℚ),
        absolute_errors approx (some ex) = .ok (some errs) ∧
        errs.length = approx.length ∧
        ∀ i, i < errs.length →
          errs.getD i none =
            (ex.getD i none).map (fun ev => |approx.getD i 0 - ev|)) := by
  have hfun : (fun (a : ℚ) (e : Option ℚ) => match e with
      | none => none
      | some ev => some |a - ev|) =
      (fun (a : ℚ) (e : Option ℚ) => e.map fun ev => |a - ev|) := by
    funext a e
    cases e <;> rfl
  refine ⟨rfl, ?_, ?_⟩
  · by_cases hl : approx.length = ex.length
    · simp [absolute_errors, hl]
    · simp [absolute_errors, hl]
  · intro hl
    refine ⟨List.zipWith (fun a e => Option.map (fun ev => |a - ev|) e) approx ex,
      ?_, ?_, ?_⟩
    · rw [show absolute_errors approx (some ex) =
          .ok (some (List.zipWith (fun a e => match e with
            | none => none
            | some ev => some |a - ev|) approx ex)) from by
        simp [absolute_errors, hl]]
      rw [hfun]
    · rw [List.length_zipWith, hl]
      simp
    · intro i hi
      rw [List.length_zipWith, hl, min_self] at hi
      rw [zipWith_getD _ _ _ _ _ 0 none (hl ▸ hi) hi]

/-- Witness for C6: the spec's own example `absolute_errors([1,2],[1,2,3])`
fails with the length-mismatch error, and on the aligned input
`[1, 2]` vs `[NaN, 5]` the result is `[NaN, 3]`, with the index-1 entry
given by the claim's pointwise formula. -/
theorem absolute_errors_spec_witness :
    absolute_errors [1, 2] (some [some 1, some 2, some 3]) =
      .error .lengthMismatch ∧
    absolute_errors [1, 2] (some [none, some 5]) = .ok (some [none, some 3]) ∧
    ([none, some 3] : List (Option ℚ)).getD 1 none =
      (([none, some 5] : List (Option ℚ)).getD 1 none).map
        (fun ev => |([1, 2] : List ℚ).getD 1 0 - ev|) := by
  refine ⟨(absolute_errors_spec [1, 2] [some 1, some 2, some 3]).2.1.mpr
      (by norm_num),
    by with_unfolding_all rfl, ?_⟩
  obtain ⟨errs, hok, hlen, hget⟩ :=
    (absolute_errors_spec [1, 2] [none, some 5]).2.2 rfl
  have herrs : errs = [none, some 3] := by
    have h2 : absolute_errors [1, 2] (some [none, some 5]) =
        .ok (some [none, some 3]) := by with_unfolding_all rfl
    rw [h2] at hok
    exact (Option.some.inj (Except.ok.inj hok)).symm
  have hg := hget 1 (by rw [hlen]; decide)
  rw [herrs] at hg
  exact hg

/-- **C5**: for equal-length inputs, `summary_error_metrics` never raises:
it filters the `NaN` pointwise errors and returns their maximum together
with the squared RMSE, the mean of the squared remaining errors (so the
RMSE is its square root); when every pointwise error is `NaN` both fields
are `None` instead of an exception. -/
theorem summary_error_metrics_spec (approx : List ℚ) (ex : List (Option ℚ))
    (hlen : approx.length = ex.length) :
    ∃ s : ErrorSummaryQ,
      summary_error_metrics approx (some ex) = .ok (some s) ∧
      ((∀ e ∈ ex, e = none) → s = ⟨none, none⟩) ∧
      ((List.zipWith (fun a e => Option.map (fun ev => |a - ev|) e) approx
          ex).filterMap id ≠ [] →
        (∃ M : ℚ, s.maxErr = some M ∧
          M ∈ (List.zipWith (fun a e => Option.map (fun ev => |a - ev|) e)
            approx ex).filterMap id ∧
          ∀ e ∈ (List.zipWith (fun a e => Option.map (fun ev => |a - ev|) e)
            approx ex).filterMap id, e ≤ M) ∧
        (∃ m : ℚ, s.rmse_sq = some m ∧
          Real.sqrt (m : ℝ) =
            Real.sqrt (((((List.zipWith
                (fun a e => Option.map (fun ev => |a - ev|) e) approx
                ex).filterMap id).map fun e => e ^ 2).sum /
              (((List.zipWith (fun a e => Option.map (fun ev => |a - ev|) e)
                approx ex).filterMap id).length : ℚ) : ℚ) : ℝ))) := by
  have hfun : (fun (a : ℚ) (e : Option ℚ) => match e with
      | none => none
      | some ev => some |a - ev|) =
      (fun (a : ℚ) (e : Option ℚ) => e.map fun ev => |a - ev|) := by
    funext a e
    cases e <;> rfl
  have hne : ¬ approx.length ≠ ex.length := by simp [hlen]
  rcases hv : (List.zipWith (fun a e => Option.map (fun ev => |a - ev|) e)
      approx ex).filterMap id with _ | ⟨v, vs⟩
  · refine ⟨⟨none, none⟩, ?_, fun _ => rfl, fun hc => absurd rfl hc⟩
    simp only [summary_error_metrics, absolute_errors, if_neg hne, hfun,
      Except.map]
    rw [hv]
  · refine ⟨⟨some (vs.foldl max v),
      some ((((v :: vs)).map fun e => e * e).sum / ((v :: vs)).length)⟩,
      ?_, ?_, ?_⟩
    · simp only [summary_error_metrics, absolute_errors, if_neg hne, hfun,
        Except.map]
      rw [hv]
    · intro hall
      have h0 := zip_abs_none approx ex hall
      rw [hv] at h0
      simp at h0
    · intro _
      constructor
      · exact ⟨vs.foldl max v, rfl, foldl_max_mem vs v,
          fun e he => le_foldl_max_of_mem vs v e he⟩
      · refine ⟨_, rfl, ?_⟩
        have hq : (((v :: vs)).map fun e => e * e).sum / (((v :: vs)).length : ℚ) =
            (((v :: vs).map fun e => e ^ 2).sum / (((v :: vs)).length : ℚ) : ℚ) := by
          congr 1
          congr 1
          apply List.map_congr_left
          intro e _
          ring
        exact congrArg (fun q : ℚ => Real.sqrt (q : ℝ)) hq

/-- Witness for C5: the spec's own example `summary_error_metrics([1,2,3],
[NaN,NaN,NaN])` returns the summary with both fields undefined instead of
failing; and on `[1,2,3]` vs `[1,NaN,5]` the valid errors are `[0,2]` with
max `2` and squared RMSE `2`. -/
theorem summary_error_metrics_spec_witness :
    summary_error_metrics [1, 2, 3] (some [none, none, none]) =
      .ok (some ⟨none, none⟩) ∧
    summary_error_metrics [1, 2, 3] (some [some 1, none, some 5]) =
      .ok (some ⟨some 2, some 2⟩) := by
  constructor
  · obtain ⟨s, hok, hnan, -⟩ :=
      summary_error_metrics_spec [1, 2, 3] [none, none, none] rfl
    rw [hok, hnan (by simp)]
  · with_unfolding_all rfl

theorem bestStep_foldl :
    ∀ (l : List (String × ℚ)) (bn : String) (br : ℚ),
      (l.foldl bestStep (some bn, some br) = (some bn, some br) ∧
        ∀ p ∈ l, br ≤ p.2) ∨
      (∃ i : Fin l.length,
        l.foldl bestStep (some bn, some br) =
          (some (l.get i).1, some (l.get i).2) ∧
        (l.get i).2 < br ∧
        (∀ p ∈ l, (l.get i).2 ≤ p.2) ∧
        (∀ j : Fin l.length, (j : ℕ) < (i : ℕ) → (l.get i).2 < (l.get j).2)) := by
  intro l
  induction l with
  | nil =>
      intro bn br
      left
      exact ⟨rfl, by simp⟩
  | cons p t ih =>
      intro bn br
      by_cases hp : p.2 < br
      · have hstep : bestStep (some bn, some br) p = (some p.1, some p.2) := by
          simp [bestStep, hp]
        rcases ih p.1 p.2 with ⟨heq, hall⟩ | ⟨i, heq, hlt, hall, hfirst⟩
        · right
          refine ⟨⟨0, by simp⟩, ?_, hp, ?_, ?_⟩
          · simp only [List.foldl_cons, hstep]
            exact heq
          · intro q hq
            rcases List.mem_cons.mp hq with hq1 | hq2
            · rw [hq1]
              exact le_refl p.2
            · exact hall q hq2
          · intro j hj
            simp at hj
        · right
          refine ⟨⟨(i : ℕ) + 1, by
              simpa using Nat.succ_lt_succ i.isLt⟩, ?_, ?_, ?_, ?_⟩
          · simp only [List.foldl_cons, hstep]
            exact heq
          · exact lt_trans hlt hp
          · intro q hq
            rcases List.mem_cons.mp hq with hq1 | hq2
            · rw [hq1]
              exact le_of_lt hlt
            · exact hall q hq2
          · intro j hj
            rcases j with ⟨jv, hjv⟩
            cases jv with
            | zero => exact hlt
            | succ jv =>
                exact hfirst ⟨jv, by simpa using Nat.lt_of_succ_lt_succ hjv⟩
                  (Nat.lt_of_succ_lt_succ hj)
      · have hstep : bestStep (some bn, some br) p = (some bn, some br) := by
          simp [bestStep, hp]
        rcases ih bn br with ⟨heq, hall⟩ | ⟨i, heq, hlt, hall, hfirst⟩
        · left
          constructor
          · simp only [List.foldl_cons, hstep]
            exact heq
          · intro q hq
            rcases List.mem_cons.mp hq with hq1 | hq2
            · rw [hq1]
              exact not_lt.mp hp
            · exact hall q hq2
        · right
          refine ⟨⟨(i : ℕ) + 1, by
              simpa using Nat.succ_lt_succ i.isLt⟩, ?_, hlt, ?_, ?_⟩
          · simp only [List.foldl_cons, hstep]
            exact heq
          · intro q hq
            rcases List.mem_cons.mp hq with hq1 | hq2
            · rw [hq1]
              exact le_trans (le_of_lt hlt) (not_lt.mp hp)
            · exact hall q hq2
          · intro j hj
            rcases j with ⟨jv, hjv⟩
            cases jv with
            | zero => exact lt_of_lt_of_le hlt (not_lt.mp hp)
            | succ jv =>
                exact hfirst ⟨jv, by simpa using Nat.lt_of_succ_lt_succ hjv⟩
                  (Nat.lt_of_succ_lt_succ hj)

/-- **C4**: the `best_method` selection of `solve_benchmark` picks, among
the `(name, rmse)` pairs in request order, the first one whose RMSE is
strictly smaller than every earlier RMSE and no larger than every later
one — i.e. the lowest RMSE with ties broken in favor of the earlier
method, because the loop's comparison is a strict `<`.  The pairs carry
the squared RMSE (`rmse_sq`); the conclusion is phrased through
`Real.sqrt`, the actual RMSE. -/
theorem best_method_lowest_rmse_first_wins (l : List (String × ℚ))
    (hne : l ≠ []) (hnn : ∀ p ∈ l, 0 ≤ p.2) :
    ∃ i : Fin l.length,
      selectBest l = (some (l.get i).1, some (l.get i).2) ∧
      (∀ j : Fin l.length,
        Real.sqrt ((l.get i).2 : ℝ) ≤ Real.sqrt ((l.get j).2 : ℝ)) ∧
      (∀ j : Fin l.length, (j : ℕ) < (i : ℕ) →
        Real.sqrt ((l.get i).2 : ℝ) < Real.sqrt ((l.get j).2 : ℝ)) := by
  cases l with
  | nil => exact absurd rfl hne
  | cons p t =>
      have hsel : selectBest (p :: t) =
          t.foldl bestStep (some p.1, some p.2) := rfl
      have hq_le : ∀ (a b : ℚ), a ≤ b →
          Real.sqrt (a : ℝ) ≤ Real.sqrt (b : ℝ) := by
        intro a b hab
        exact Real.sqrt_le_sqrt (by exact_mod_cast hab)
      have hq_lt : ∀ (a b : ℚ), 0 ≤ a → a < b →
          Real.sqrt (a : ℝ) < Real.sqrt (b : ℝ) := by
        intro a b ha hab
        exact Real.sqrt_lt_sqrt (by exact_mod_cast ha) (by exact_mod_cast hab)
      rcases bestStep_foldl t p.1 p.2 with ⟨heq, hall⟩ | ⟨i, heq, hlt, hall, hfirst⟩
      · refine ⟨⟨0, by simp⟩, by rw [hsel, heq]; rfl, ?_, ?_⟩
        · intro j
          rcases j with ⟨jv, hjv⟩
          cases jv with
          | zero => exact le_refl _
          | succ jv =>
              exact hq_le _ _ (hall _ (t.get_mem jv (by
                simpa using Nat.lt_of_succ_lt_succ hjv)))
        · intro j hj
          simp at hj
      · have hmem : t.get i ∈ p :: t :=
          List.mem_cons.mpr (Or.inr (t.get_mem _ i.isLt))
        have h0 : (0 : ℚ) ≤ (t.get i).2 := hnn _ hmem
        refine ⟨⟨(i : ℕ) + 1, by simpa using Nat.succ_lt_succ i.isLt⟩,
          by rw [hsel, heq]; rfl, ?_, ?_⟩
        · intro j
          rcases j with ⟨jv, hjv⟩
          cases jv with
          | zero => exact hq_le _ _ (le_of_lt hlt)
          | succ jv =>
              exact hq_le _ _ (hall _ (t.get_mem jv (by
                simpa using Nat.lt_of_succ_lt_succ hjv)))
        · intro j hj
          rcases j with ⟨jv, hjv⟩
          cases jv with
          | zero => exact hq_lt _ _ h0 hlt
          | succ jv =>
              exact hq_lt _ _ h0 (hfirst ⟨jv, by
                simpa using Nat.lt_of_succ_lt_succ hjv⟩
                (Nat.lt_of_succ_lt_succ hj))

/-- Witness for C4: on the tie `[("Euler", r), ("RK4", r)]` (equal squared
RMSE `r = 2`) the first-requested method Euler is selected. -/
theorem best_method_lowest_rmse_first_wins_witness :
    selectBest [("Euler", 2), ("RK4", 2)] = (some "Euler", some 2) := by
  obtain ⟨i, heq, -, hfirst⟩ :=
    best_method_lowest_rmse_first_wins [("Euler", 2), ("RK4", 2)]
      (by simp) (by norm_num)
  rcases i with ⟨iv, hiv⟩
  match iv, hiv with
  | 0, _ => exact heq
  | 1, _ =>
      exact absurd (hfirst ⟨0, by norm_num⟩ (by norm_num)) (lt_irrefl _)

/-- **C8**: a request with a custom equation and
`comparison_mode = "contra_analitica"` (and a valid domain, the Problem
invariant `x_end > x0` checked first by `_validate_domain`) makes
`solve_benchmark` fail with the unsupported-comparison client error.  The
theorem holds for arbitrary integrator implementations and the result does
not depend on them, so no integrator is consulted and no time grid is
built before the failure. -/
theorem custom_contra_analitica_rejected
    (eulerImpl rk4Impl :
      (ℚ → ℚ → ℚ) → ℚ → ℚ → ℚ → ℚ → Except SolveError (List ℚ × List ℚ))
    (req : CompareReq) (hc : req.equation.isCustom = true)
    (hm : req.comparison_mode = .contra_analitica) (hd : req.x0 < req.x_end) :
    solve_benchmark eulerImpl rk4Impl req = .error .unsupportedComparison := by
  simp [solve_benchmark, not_le.mpr hd, hc, hm]

/-- Witness for C8: a concrete custom-equation request (`f(x,y) = x*y`,
both methods requested, the real `euler_solve`/`rk4_solve` as
integrators) with `contra_analitica` mode is rejected. -/
theorem custom_contra_analitica_rejected_witness :
    solve_benchmark euler_solve rk4_solve
      ⟨.custom (fun x y => x * y), 0, 1, 1, 1/10, ["Euler", "RK4"],
        .contra_analitica⟩ = .error .unsupportedComparison :=
  custom_contra_analitica_rejected euler_solve rk4_solve _ rfl rfl (by norm_num)

/-! ### C9: fourth-order convergence of RK4 on `y' = -2y`, `y(0) = 1` -/

/-- Trajectory (the `ys` list) of a solver result; empty on failure. -/
def trajOf (r : Except SolveError (List ℚ × List ℚ)) : List ℚ :=
  match r with
  | .ok p => p.2
  | .error _ => []

/-- One RK4 step on the linear test equation `y' = -2y` multiplies `y` by
`R(-2h) = 1 - 2h + 2h² - (4/3)h³ + (2/3)h⁴`, the degree-4 Taylor
polynomial of `exp` at `-2h`. -/
def rk4LinFactor (stp : ℚ) : ℚ :=
  1 - 2*stp + 2*stp^2 - (4/3)*stp^3 + (2/3)*stp^4

/-- RK4 trajectory of `y' = -2y, y(0) = 1` on `[0, 1]` with `h = 1/10`. -/
def rk4TrajA : List ℚ := trajOf (rk4_solve (fun _ y => -2*y) 0 1 (1/10) 1)

/-- RK4 trajectory of `y' = -2y, y(0) = 1` on `[0, 1]` with `h = 1/20`. -/
def rk4TrajB : List ℚ := trajOf (rk4_solve (fun _ y => -2*y) 0 1 (1/20) 1)

/-- Maximum absolute error of a trajectory with step `stp` starting at 0
against the exact solution `exp(-2t)` of the test problem, sampled at the
trajectory's own grid points `t_k = k • stp`. -/
noncomputable def maxErrExp (ys : List ℚ) (stp : ℚ) : ℝ :=
  ((List.range ys.length).map fun k =>
    |((ys.getD k 0 : ℚ) : ℝ) - Real.exp (-2 * ((k : ℝ) * ((stp : ℚ) : ℝ)))|).foldr max 0

theorem rk4Iter_linear (stp y0 : ℚ) :
    ∀ k : ℕ, rk4Iter (fun _ y => -2*y) 0 stp y0 k = (rk4LinFactor stp)^k * y0 := by
  intro k
  induction k with
  | zero => simp [rk4Iter]
  | succ k ih =>
      simp only [rk4Iter, ih, rk4LinFactor]
      ring

theorem pythonRound_intCast (n : ℤ) : pythonRound (n : ℚ) = n := by
  unfold pythonRound
  rw [Int.floor_intCast]
  norm_num

theorem rk4_solve_linear (stp x_end : ℚ) (h1 : ¬ stp ≤ 0)
    (h2 : ¬ pythonRound ((x_end - 0) / stp) ≤ 0) :
    rk4_solve (fun _ y => -2*y) 0 1 stp x_end =
      .ok ((List.range ((pythonRound ((x_end - 0) / stp)).toNat + 1)).map
            (fun j : ℕ => 0 + (j : ℚ) * stp),
          (List.range ((pythonRound ((x_end - 0) / stp)).toNat + 1)).map
            (fun j : ℕ => (rk4LinFactor stp) ^ j)) := by
  simp only [rk4_solve, if_neg h1, if_neg h2, rk4Go_zero, List.map_map,
    Except.ok.injEq, Prod.mk.injEq]
  constructor
  · rw [← cons_map_range 0 (fun j : ℕ => 0 + (j : ℚ) * stp) _ (by push_cast; ring)]
    congr 1
    apply List.map_congr_left
    intro j _
    simp [Function.comp]
  · rw [← cons_map_range 1 (fun j : ℕ => (rk4LinFactor stp) ^ j) _ (by norm_num)]
    congr 1
    apply List.map_congr_left
    intro j _
    simp only [Function.comp]
    rw [rk4Iter_linear stp 1 (j + 1), mul_one]

theorem le_foldr_max : ∀ (l : List ℝ) (a : ℝ), a ∈ l → a ≤ l.foldr max 0 := by
  intro l
  induction l with
  | nil => intro a ha; simp at ha
  | cons b t ih =>
      intro a ha
      simp only [List.foldr_cons]
      rcases List.mem_cons.mp ha with h1 | h2
      · rw [h1]
        exact le_max_left _ _
      · exact le_trans (ih a h2) (le_max_right _ _)

theorem foldr_max_le : ∀ (l : List ℝ) (c : ℝ), 0 ≤ c → (∀ a ∈ l, a ≤ c) →
    l.foldr max 0 ≤ c := by
  intro l
  induction l with
  | nil => intro c hc _; simpa using hc
  | cons b t ih =>
      intro c hc h
      simp only [List.foldr_cons]
      exact max_le (h b (List.mem_cons_self b t))
        (ih c hc fun a ha => h a (List.mem_cons.mpr (Or.inr ha)))

theorem err_term_bounds (R lo hi : ℚ) (x : ℝ) (k : ℕ)
    (hlo0 : 0 ≤ lo) (hlox : ((lo : ℚ) : ℝ) ≤ x) (hxhi : x ≤ ((hi : ℚ) : ℝ))
    (hhiR : hi ≤ R) :
    ((R ^ k - hi ^ k : ℚ) : ℝ) ≤ |((R : ℚ) : ℝ) ^ k - x ^ k| ∧
    |((R : ℚ) : ℝ) ^ k - x ^ k| ≤ ((R ^ k - lo ^ k : ℚ) : ℝ) := by
  have hlo0' : (0 : ℝ) ≤ ((lo : ℚ) : ℝ) := by exact_mod_cast hlo0
  have hx0 : (0 : ℝ) ≤ x := le_trans hlo0' hlox
  have hhi0 : (0 : ℚ) ≤ hi := le_trans hlo0 (by exact_mod_cast le_trans hlox hxhi)
  have h1 : x ^ k ≤ ((hi : ℚ) : ℝ) ^ k := pow_le_pow_left hx0 hxhi k
  have h2 : ((lo : ℚ) : ℝ) ^ k ≤ x ^ k := pow_le_pow_left hlo0' hlox k
  have h3 : ((hi : ℚ) : ℝ) ^ k ≤ ((R : ℚ) : ℝ) ^ k :=
    pow_le_pow_left (by exact_mod_cast hhi0) (by exact_mod_cast hhiR) k
  have habs : |((R : ℚ) : ℝ) ^ k - x ^ k| = ((R : ℚ) : ℝ) ^ k - x ^ k := by
    rw [abs_of_nonneg]
    linarith
  rw [habs]
  constructor
  · push_cast
    linarith
  · push_cast
    linarith

/-- **C9**: fourth-order convergence of RK4 on `y' = -2y, y(0) = 1, T = 1`:
halving the step from `h = 1/10` to `h = 1/20` reduces the maximum
absolute error of the RK4 trajectory against the exact solution
`exp(-2t)` by a factor of approximately 16: the factor is between 15 and
18 (its exact value is ≈ 17.4 ≈ 2^4.12, consistent with global order
`O(h^4)`). -/
theorem rk4_order_four_convergence :
    rk4TrajA.length = 11 ∧ rk4TrajB.length = 21 ∧
    15 * maxErrExp rk4TrajB (1/20) ≤ maxErrExp rk4TrajA (1/10) ∧
    maxErrExp rk4TrajA (1/10) ≤ 18 * maxErrExp rk4TrajB (1/20) := by
  have hnA : pythonRound ((1 - 0) / ((1:ℚ)/10)) = 10 := by
    rw [show ((1:ℚ) - 0) / (1/10) = ((10:ℤ) : ℚ) by norm_num]
    exact pythonRound_intCast 10
  have hnB : pythonRound ((1 - 0) / ((1:ℚ)/20)) = 20 := by
    rw [show ((1:ℚ) - 0) / (1/20) = ((20:ℤ) : ℚ) by norm_num]
    exact pythonRound_intCast 20
  have hn10 : pythonRound (10 : ℚ) = 10 := by
    rw [show (10 : ℚ) = ((10:ℤ) : ℚ) by norm_num]
    exact pythonRound_intCast 10
  have hn20 : pythonRound (20 : ℚ) = 20 := by
    rw [show (20 : ℚ) = ((20:ℤ) : ℚ) by norm_num]
    exact pythonRound_intCast 20
  have hTA : rk4TrajA =
      (List.range 11).map (fun j : ℕ => (rk4LinFactor (1/10)) ^ j) := by
    unfold rk4TrajA
    rw [rk4_solve_linear (1/10) 1 (by norm_num) (by rw [hnA]; norm_num)]
    simp [trajOf, hn10]
  have hTB : rk4TrajB =
      (List.range 21).map (fun j : ℕ => (rk4LinFactor (1/20)) ^ j) := by
    unfold rk4TrajB
    rw [rk4_solve_linear (1/20) 1 (by norm_num) (by rw [hnB]; norm_num)]
    simp [trajOf, hn20]
  have hlenA : rk4TrajA.length = 11 := by
    rw [hTA]
    simp
  have hlenB : rk4TrajB.length = 21 := by
    rw [hTB]
    simp
  -- rational enclosure of E = exp(-1/10)
  have hx : |(-(1/10) : ℝ)| ≤ 1 := by
    rw [abs_neg, abs_of_nonneg (by norm_num)]
    norm_num
  have hb := Real.exp_bound hx (n := 8) (by norm_num)
  have hsum : ∑ m ∈ Finset.range 8, (-(1/10) : ℝ) ^ m / m.factorial =
      5067089541/5600000000 := by
    rw [Finset.sum_range_succ, Finset.sum_range_succ, Finset.sum_range_succ,
      Finset.sum_range_succ, Finset.sum_range_succ, Finset.sum_range_succ,
      Finset.sum_range_succ, Finset.sum_range_succ, Finset.sum_range_zero]
    rw [show Nat.factorial 0 = 1 from by decide,
      show Nat.factorial 1 = 1 from by decide,
      show Nat.factorial 2 = 2 from by decide,
      show Nat.factorial 3 = 6 from by decide,
      show Nat.factorial 4 = 24 from by decide,
      show Nat.factorial 5 = 120 from by decide,
      show Nat.factorial 6 = 720 from by decide,
      show Nat.factorial 7 = 5040 from by decide]
    norm_num
  have hrhs : |(-(1/10) : ℝ)| ^ 8 *
      (((8 : ℕ).succ : ℝ) / (((8 : ℕ).factorial : ℝ) * ((8 : ℕ) : ℝ))) =
      3/10752000000000 := by
    rw [abs_neg, abs_of_nonneg (by norm_num : (0:ℝ) ≤ 1/10)]
    rw [show ((8 : ℕ).factorial) = 40320 from by decide]
    norm_num
  rw [hsum, hrhs, abs_le] at hb
  have hLE : ((9728811918717/10752000000000 : ℚ) : ℝ) ≤ Real.exp (-(1/10)) := by
    push_cast
    linarith [hb.1]
  have hEU : Real.exp (-(1/10)) ≤ ((9728811918723/10752000000000 : ℚ) : ℝ) := by
    push_cast
    linarith [hb.2]
  have hL0 : (0 : ℚ) ≤ 9728811918717/10752000000000 := by norm_num
  have hE0 : (0 : ℝ) ≤ Real.exp (-(1/10)) := le_of_lt (Real.exp_pos _)
  -- squared enclosure for the h = 1/10 trajectory (exact values exp(-2t_k) = (E²)^k)
  have hLE2 : (((9728811918717/10752000000000 : ℚ)^2 : ℚ) : ℝ) ≤
      (Real.exp (-(1/10)))^2 := by
    push_cast
    exact pow_le_pow_left (by norm_num) (by push_cast at hLE ⊢; linarith) 2
  have hEU2 : (Real.exp (-(1/10)))^2 ≤
      (((9728811918723/10752000000000 : ℚ)^2 : ℚ) : ℝ) := by
    push_cast
    exact pow_le_pow_left hE0 (by push_cast at hEU ⊢; linarith) 2
  -- rewrite the two max errors over the closed-form trajectories
  have hMA : maxErrExp rk4TrajA (1/10) =
      ((List.range 11).map (fun k =>
        |((rk4LinFactor (1/10) : ℚ) : ℝ) ^ k -
          ((Real.exp (-(1/10)))^2) ^ k|)).foldr max 0 := by
    unfold maxErrExp
    rw [hlenA, hTA]
    congr 1
    apply List.map_congr_left
    intro k hk
    rw [List.mem_range] at hk
    rw [getD_map_range, if_pos hk]
    have h1 : (((rk4LinFactor (1/10))^k : ℚ) : ℝ) =
        ((rk4LinFactor (1/10) : ℚ) : ℝ) ^ k := by
      push_cast
      rfl
    have h2 : Real.exp (-2 * ((k : ℝ) * (((1:ℚ)/10 : ℚ) : ℝ))) =
        ((Real.exp (-(1/10)))^2) ^ k := by
      rw [← pow_mul, ← Real.exp_nat_mul]
      congr 1
      push_cast
      ring
    rw [h1, h2]
  have hMB : maxErrExp rk4TrajB (1/20) =
      ((List.range 21).map (fun k =>
        |((rk4LinFactor (1/20) : ℚ) : ℝ) ^ k -
          (Real.exp (-(1/10))) ^ k|)).foldr max 0 := by
    unfold maxErrExp
    rw [hlenB, hTB]
    congr 1
    apply List.map_congr_left
    intro k hk
    rw [List.mem_range] at hk
    rw [getD_map_range, if_pos hk]
    have h1 : (((rk4LinFactor (1/20))^k : ℚ) : ℝ) =
        ((rk4LinFactor (1/20) : ℚ) : ℝ) ^ k := by
      push_cast
      rfl
    have h2 : Real.exp (-2 * ((k : ℝ) * (((1:ℚ)/20 : ℚ) : ℝ))) =
        (Real.exp (-(1/10))) ^ k := by
      rw [← Real.exp_nat_mul]
      congr 1
      push_cast
      ring
    rw [h1, h2]
  -- per-index rational bounds
  have hR1 : rk4LinFactor ((1:ℚ)/10) = 12281/15000 := by
    norm_num [rk4LinFactor]
  have hR2 : rk4LinFactor ((1:ℚ)/20) = 72387/80000 := by
    norm_num [rk4LinFactor]
  have hUR1 : ((9728811918723/10752000000000 : ℚ)^2 : ℚ) ≤ rk4LinFactor (1/10) := by
    rw [hR1]
    norm_num
  have hUR2 : (9728811918723/10752000000000 : ℚ) ≤ rk4LinFactor (1/20) := by
    rw [hR2]
    norm_num
  have hup1 : ∀ k, k < 11 →
      (rk4LinFactor (1/10))^k - ((9728811918717/10752000000000 : ℚ)^2)^k ≤
        29/5000000 := by
    intro k hk
    rw [hR1]
    interval_cases k <;> norm_num
  have hup2 : ∀ k, k < 21 →
      (rk4LinFactor (1/20))^k - (9728811918717/10752000000000 : ℚ)^k ≤
        3333/10000000000 := by
    intro k hk
    rw [hR2]
    interval_cases k <;> norm_num
  have hlow1 : (5796/1000000000 : ℚ) ≤
      (rk4LinFactor (1/10))^5 - ((9728811918723/10752000000000 : ℚ)^2)^5 := by
    rw [hR1]
    norm_num
  have hlow2 : (333/1000000000 : ℚ) ≤
      (rk4LinFactor (1/20))^10 - (9728811918723/10752000000000 : ℚ)^10 := by
    rw [hR2]
    norm_num
  -- upper and lower bounds for the two max errors
  have hA_ub : maxErrExp rk4TrajA (1/10) ≤ ((29/5000000 : ℚ) : ℝ) := by
    rw [hMA]
    apply foldr_max_le
    · norm_num
    · intro a ha
      rw [List.mem_map] at ha
      obtain ⟨k, hk, rfl⟩ := ha
      rw [List.mem_range] at hk
      refine le_trans (err_term_bounds (rk4LinFactor (1/10))
        ((9728811918717/10752000000000 : ℚ)^2)
        ((9728811918723/10752000000000 : ℚ)^2)
        ((Real.exp (-(1/10)))^2) k (by norm_num) hLE2 hEU2 hUR1).2 ?_
      exact_mod_cast hup1 k hk
  have hB_ub : maxErrExp rk4TrajB (1/20) ≤ ((3333/10000000000 : ℚ) : ℝ) := by
    rw [hMB]
    apply foldr_max_le
    · norm_num
    · intro a ha
      rw [List.mem_map] at ha
      obtain ⟨k, hk, rfl⟩ := ha
      rw [List.mem_range] at hk
      refine le_trans (err_term_bounds (rk4LinFactor (1/20))
        (9728811918717/10752000000000 : ℚ)
        (9728811918723/10752000000000 : ℚ)
        (Real.exp (-(1/10))) k hL0 hLE hEU hUR2).2 ?_
      exact_mod_cast hup2 k hk
  have hA_lb : ((5796/1000000000 : ℚ) : ℝ) ≤ maxErrExp rk4TrajA (1/10) := by
    rw [hMA]
    refine le_trans ?_ (le_foldr_max _
      (|((rk4LinFactor (1/10) : ℚ) : ℝ) ^ 5 - ((Real.exp (-(1/10)))^2) ^ 5|)
      (List.mem_map.mpr ⟨5, List.mem_range.mpr (by norm_num), rfl⟩))
    refine le_trans ?_ (err_term_bounds (rk4LinFactor (1/10))
      ((9728811918717/10752000000000 : ℚ)^2)
      ((9728811918723/10752000000000 : ℚ)^2)
      ((Real.exp (-(1/10)))^2) 5 (by norm_num) hLE2 hEU2 hUR1).1
    exact_mod_cast hlow1
  have hB_lb : ((333/1000000000 : ℚ) : ℝ) ≤ maxErrExp rk4TrajB (1/20) := by
    rw [hMB]
    refine le_trans ?_ (le_foldr_max _
      (|((rk4LinFactor (1/20) : ℚ) : ℝ) ^ 10 - (Real.exp (-(1/10))) ^ 10|)
      (List.mem_map.mpr ⟨10, List.mem_range.mpr (by norm_num), rfl⟩))
    refine le_trans ?_ (err_term_bounds (rk4LinFactor (1/20))
      (9728811918717/10752000000000 : ℚ)
      (9728811918723/10752000000000 : ℚ)
      (Real.exp (-(1/10))) 10 hL0 hLE hEU hUR2).1
    exact_mod_cast hlow2
  refine ⟨hlenA, hlenB, ?_, ?_⟩
  · have h1 : (15 : ℝ) * ((3333/10000000000 : ℚ) : ℝ) ≤
        ((5796/1000000000 : ℚ) : ℝ) := by
      push_cast
      norm_num
    nlinarith [hB_ub, hA_lb]
  · have h2 : ((29/5000000 : ℚ) : ℝ) ≤
        18 * ((333/1000000000 : ℚ) : ℝ) := by
      push_cast
      norm_num
    nlinarith [hA_ub, hB_lb]
